import Mathlib

/-!
Verification of the hash-command and stream-command layer of the
mini-redis server (src/src/cmd/hset.rs, hget.rs, hgetall.rs,
stream_producer.rs and src/src/streams.rs), as a shallow embedding in
Lean 4.  The surrounding infrastructure (the `Frame` type, the `Parse`
cursor, the `Db` engine and the `Connection` sink) is not part of the
sources under verification; it is modelled from the specification, as
marked on each such definition.
-/

namespace MiniRedis

/-- A byte payload (Rust `Bytes`).  Bulk payloads are modelled as lists of
characters, abstracting the UTF-8 encoding: no verified claim depends on
the byte-level representation of a payload, only on its identity. -/
abbrev ByteStr := List Char

/-- Encode a Rust `String` as a payload (`String::into_bytes`). -/
def strToBytes (s : String) : ByteStr := s.toList

/-- Decode a payload back to a string (`str::from_utf8`); total in this
model because payloads are character lists. -/
def bytesToStr (b : ByteStr) : String := String.mk b

/-- Modelled from the spec: the `Frame` wire value (spec section 4.1) with
variants Simple string, Error string, Integer, Bulk payload, Null and
Array of frames.  `frame.rs` is not among the sources. -/
inductive Frame where
  | Simple : String → Frame
  | Err : String → Frame
  | Integer : Nat → Frame
  | Bulk : ByteStr → Frame
  | Null : Frame
  | Arr : List Frame → Frame

/-- `Frame::array()`: a fresh empty array frame. -/
def Frame.array : Frame := Frame.Arr []

/-- `Frame::push_bulk`: append a Bulk frame to an array frame.  The Rust
function panics on a non-array receiver; every call site in the sources
pushes onto an array, so the non-array case is modelled as the identity. -/
def Frame.push_bulk (f : Frame) (b : ByteStr) : Frame :=
  match f with
  | Frame.Arr l => Frame.Arr (l ++ [Frame.Bulk b])
  | other => other

/-- Lookup in an association list keyed by strings. -/
def alist_get {α : Type} (k : String) : List (String × α) → Option α
  | [] => none
  | (k', v) :: rest => if k' = k then some v else alist_get k rest

/-- Insert-or-overwrite in an association list keyed by strings. -/
def alist_set {α : Type} (k : String) (v : α) : List (String × α) → List (String × α)
  | [] => [(k, v)]
  | (k', v') :: rest => if k' = k then (k, v) :: rest else (k', v') :: alist_set k v rest

/-- A per-key field map (hash value): field name to payload. -/
abbrev FieldMap := List (String × ByteStr)

/-- Modelled from the spec: the field-map portion of the Data Engine
(`Db`, spec section 4.3).  `db.rs` is not among the sources.  Scalar
values, expirations and the subscription registry are omitted: no claim
under verification touches them. -/
structure Db where
  hashes : List (String × FieldMap)

/-- The engine state at startup: no keys. -/
def Db.empty : Db := ⟨[]⟩

/-- Modelled from the spec: `hset(key, field, bytes)` creates the field
map for `key` if absent and inserts/overwrites `field` (spec 4.3). -/
def Db.hset (db : Db) (key f : String) (value : ByteStr) : Db :=
  let fm := (alist_get key db.hashes).getD []
  ⟨alist_set key (alist_set f value fm) db.hashes⟩

/-- Modelled from the spec: `hget(key, field) -> optional bytes`. -/
def Db.hget (db : Db) (key f : String) : Option ByteStr :=
  (alist_get key db.hashes).bind (alist_get f)

/-- Modelled from the spec: `hgetall(key) -> optional mapping
field->bytes` (none if key absent). -/
def Db.hgetall (db : Db) (key : String) : Option FieldMap :=
  alist_get key db.hashes

/-- Modelled from the spec: the engine-side effect of the stream command
`XADD` is a no-op or a debug print (spec section 9); `Db::xadd` is not
among the sources, only its caller `XAdd::apply` is. -/
def Db.xadd (db : Db) (stream_name : String) (entries : List String) : Db :=
  db

/-- Modelled from the spec: the reply sink of a `Connection` (spec 4.5).
`connection.rs` is not among the sources.  Only the sequence of frames
passed to `write_frame` matters to the claims, so a connection is the
list of frames written so far. -/
structure Connection where
  written : List Frame

/-- `Connection::write_frame`: buffer and flush one reply frame. -/
def Connection.write_frame (c : Connection) (f : Frame) : Connection :=
  ⟨c.written ++ [f]⟩

/-- Modelled from the spec: the two failure conditions of the command
parser (spec 4.2): a distinct end-of-stream condition when no elements
remain, and a protocol error when an element's shape does not match. -/
inductive ParseErr where
  | endOfStream : ParseErr
  | protocolErr : ParseErr

/-- Coercion of one frame element to a string (`Parse::next_string`
shape check): Simple and Bulk elements are string-shaped. -/
def coerceString : Frame → Option String
  | Frame.Simple s => some s
  | Frame.Bulk b => some (bytesToStr b)
  | _ => none

/-- Coercion of one frame element to raw bytes (`Parse::next_bytes`
shape check): Simple and Bulk elements are bytes-shaped. -/
def coerceBytes : Frame → Option ByteStr
  | Frame.Simple s => some (strToBytes s)
  | Frame.Bulk b => some b
  | _ => none

/-- Modelled from the spec: `Parse::next_string` pops the next element
and coerces it to a string, failing with end-of-stream if no elements
remain and with a protocol error on a shape mismatch (spec 4.2).  The
cursor is the list of elements not yet consumed. -/
def next_string (ps : List Frame) : Except ParseErr (String × List Frame) :=
  match ps with
  | [] => Except.error ParseErr.endOfStream
  | f :: rest =>
    match coerceString f with
    | some s => Except.ok (s, rest)
    | none => Except.error ParseErr.protocolErr

/-- Modelled from the spec: `Parse::next_bytes`, as `next_string` but
coercing to raw bytes. -/
def next_bytes (ps : List Frame) : Except ParseErr (ByteStr × List Frame) :=
  match ps with
  | [] => Except.error ParseErr.endOfStream
  | f :: rest =>
    match coerceBytes f with
    | some b => Except.ok (b, rest)
    | none => Except.error ParseErr.protocolErr

/-- The `HSet` command (src/src/cmd/hset.rs). -/
structure HSet where
  key : String
  field : String
  value : ByteStr

/-- `HSet::into_frame` (src/src/cmd/hset.rs lines 43-50). -/
def HSet.into_frame (c : HSet) : Frame :=
  (((Frame.array.push_bulk (strToBytes "hset")).push_bulk
      (strToBytes c.key)).push_bulk
      (strToBytes c.field)).push_bulk c.value

/-- `HSet::apply` (src/src/cmd/hset.rs lines 57-67): store via the
engine's hset, then write the Simple "OK" reply. -/
def HSet.apply (c : HSet) (db : Db) (dst : Connection) : Db × Connection :=
  let db2 := db.hset c.key c.field c.value
  let response := Frame.Simple "OK"
  (db2, dst.write_frame response)

/-- `HSet::parse_frames` (src/src/cmd/hset.rs lines 71-85): key as
string, field as string, value as bytes; no exhaustion check.  The
unconsumed remainder of the cursor is returned alongside the command. -/
def HSet.parse_frames (ps : List Frame) : Except ParseErr (HSet × List Frame) :=
  match next_string ps with
  | Except.error e => Except.error e
  | Except.ok (key, ps1) =>
    match next_string ps1 with
    | Except.error e => Except.error e
    | Except.ok (f, ps2) =>
      match next_bytes ps2 with
      | Except.error e => Except.error e
      | Except.ok (value, ps3) => Except.ok (⟨key, f, value⟩, ps3)

/-- The `HGet` command (src/src/cmd/hget.rs). -/
structure HGet where
  key : String
  field : String

/-- `HGet::parse_frames` (src/src/cmd/hget.rs lines 27-32). -/
def HGet.parse_frames (ps : List Frame) : Except ParseErr (HGet × List Frame) :=
  match next_string ps with
  | Except.error e => Except.error e
  | Except.ok (key, ps1) =>
    match next_string ps1 with
    | Except.error e => Except.error e
    | Except.ok (f, ps2) => Except.ok (⟨key, f⟩, ps2)

/-- `HGet::apply` (src/src/cmd/hget.rs lines 34-46): Bulk reply if the
engine finds a value, Null otherwise. -/
def HGet.apply (c : HGet) (db : Db) (dst : Connection) : Db × Connection :=
  let response :=
    match db.hget c.key c.field with
    | some value => Frame.Bulk value
    | none => Frame.Null
  (db, dst.write_frame response)

/-- `HGet::into_frame` (src/src/cmd/hget.rs lines 50-56). -/
def HGet.into_frame (c : HGet) : Frame :=
  ((Frame.array.push_bulk (strToBytes "hget")).push_bulk
      (strToBytes c.key)).push_bulk (strToBytes c.field)

/-- The `HGetAll` command (src/src/cmd/hgetall.rs). -/
structure HGetAll where
  key : String

/-- `HGetAll::parse_frames` (src/src/cmd/hgetall.rs lines 23-26). -/
def HGetAll.parse_frames (ps : List Frame) : Except ParseErr (HGetAll × List Frame) :=
  match next_string ps with
  | Except.error e => Except.error e
  | Except.ok (key, ps1) => Except.ok (⟨key⟩, ps1)

/-- `HGetAll::apply` (src/src/cmd/hgetall.rs lines 28-48): Null if the
key is absent; otherwise an array built by pushing, for each stored
field in turn, the field name and then its value as Bulk frames. -/
def HGetAll.apply (c : HGetAll) (db : Db) (dst : Connection) : Db × Connection :=
  let response :=
    match db.hgetall c.key with
    | some hash_map =>
      hash_map.foldl
        (fun fr p => (fr.push_bulk (strToBytes p.1)).push_bulk p.2)
        (Frame.Arr [])
    | none => Frame.Null
  (db, dst.write_frame response)

/-- `HGetAll::into_frame` (src/src/cmd/hgetall.rs lines 51-56). -/
def HGetAll.into_frame (c : HGetAll) : Frame :=
  (Frame.array.push_bulk (strToBytes "hgetall")).push_bulk (strToBytes c.key)

/-- The `XAdd` command (src/src/cmd/stream_producer.rs lines 10-16). -/
structure XAdd where
  stream_name : String
  entries : List String

/-- `XAdd::apply` (src/src/cmd/stream_producer.rs lines 77-80): calls
the engine's xadd and returns Ok; it writes no reply frame. -/
def XAdd.apply (c : XAdd) (db : Db) (dst : Connection) : Db × Connection :=
  (db.xadd c.stream_name c.entries, dst)

/-- The `XRead` command (src/src/cmd/stream_producer.rs lines 20-30). -/
structure XRead where
  stream : String
  entry : String
  value : ByteStr

/-- `XRead::apply` (src/src/cmd/stream_producer.rs lines 122-127): a
no-op that returns Ok; it writes no reply frame. -/
def XRead.apply (c : XRead) (db : Db) (dst : Connection) : Db × Connection :=
  (db, dst)

/-- The `XRange` command (src/src/cmd/stream_producer.rs lines 34-44). -/
structure XRange where
  stream : String
  entry : String
  value : ByteStr

/-- `XRange::apply` (src/src/cmd/stream_producer.rs lines 169-173): a
no-op that returns Ok; it writes no reply frame. -/
def XRange.apply (c : XRange) (db : Db) (dst : Connection) : Db × Connection :=
  (db, dst)

/-- A stream entry (src/src/streams.rs lines 36-39). -/
structure StreamEntry where
  id : String
  fields : List (String × String)

/-- The `Stream` value of src/src/streams.rs lines 29-33. -/
structure Stream where
  name : String
  entries : List StreamEntry

/-- `Stream::new` (src/src/streams.rs lines 42-48): empty entry deque. -/
def Stream.new (name : String) : Stream :=
  ⟨name, []⟩

/-- `Stream::xadd` (src/src/streams.rs lines 50-57): prints the entry
fields and returns Ok without touching the stream. -/
def Stream.xadd (s : Stream) (entry_fields : List (String × String)) :
    Stream × Except String Unit :=
  (s, Except.ok ())

/-- `Stream::xread` (src/src/streams.rs lines 60-62): returns Ok,
touching nothing. -/
def Stream.xread (s : Stream) (id : String) : Stream × Except String Unit :=
  (s, Except.ok ())

/-- `Stream::xrange` (src/src/streams.rs lines 65-67): returns Ok,
touching nothing. -/
def Stream.xrange (s : Stream) (start stop : String) : Stream × Except String Unit :=
  (s, Except.ok ())

/-- The stream values reachable through the public operations of
src/src/streams.rs: built by `new` and closed under `xadd`, `xread` and
`xrange`. -/
inductive Stream.Reachable : Stream → Prop where
  | new : ∀ name, Stream.Reachable (Stream.new name)
  | xadd : ∀ s fs, Stream.Reachable s → Stream.Reachable (s.xadd fs).1
  | xread : ∀ s i, Stream.Reachable s → Stream.Reachable (s.xread i).1
  | xrange : ∀ s a b, Stream.Reachable s → Stream.Reachable (s.xrange a b).1

/-- The interleaved field/value frame list that `HGetAll::apply` builds:
for each stored field in order, the field name then its value, both as
Bulk frames. -/
def pairsToFrames : FieldMap → List Frame
  | [] => []
  | (k, v) :: rest => Frame.Bulk (strToBytes k) :: Frame.Bulk v :: pairsToFrames rest

/-- Decoding after encoding a string is the identity. -/
theorem bytesToStr_strToBytes (s : String) : bytesToStr (strToBytes s) = s := by
  cases s
  rfl

/-- Looking up the key just written finds the new value. -/
theorem alist_get_set_same {α : Type} (k : String) (v : α) (m : List (String × α)) :
    alist_get k (alist_set k v m) = some v := by
  induction m with
  | nil => simp [alist_set, alist_get]
  | cons p rest ih =>
    obtain ⟨k', v'⟩ := p
    by_cases h : k' = k
    · simp [alist_set, alist_get, h]
    · simp [alist_set, alist_get, h, ih]

/-- Writing one key leaves lookups of every other key unchanged. -/
theorem alist_get_set_other {α : Type} (k k2 : String) (v : α) (m : List (String × α))
    (h : k2 ≠ k) : alist_get k2 (alist_set k v m) = alist_get k2 m := by
  induction m with
  | nil =>
    simp only [alist_set, alist_get]
    rw [if_neg (fun hk => h hk.symm)]
  | cons p rest ih =>
    obtain ⟨k', v'⟩ := p
    by_cases hk : k' = k
    · subst hk
      have hne : ¬ (k' = k2) := fun hkk => h hkk.symm
      simp [alist_set, alist_get, hne]
    · simp [alist_set, alist_get, hk, ih]

/-- Unrolling the reply fold of `HGetAll::apply` over any accumulator. -/
theorem foldl_push_pairs (fm : FieldMap) (l : List Frame) :
    fm.foldl (fun fr p => (fr.push_bulk (strToBytes p.1)).push_bulk p.2) (Frame.Arr l)
      = Frame.Arr (l ++ pairsToFrames fm) := by
  induction fm generalizing l with
  | nil => simp [pairsToFrames]
  | cons p rest ih =>
    obtain ⟨pk, pv⟩ := p
    rw [List.foldl_cons]
    have hstep :
        ((Frame.Arr l).push_bulk (strToBytes (pk, pv).1)).push_bulk (pk, pv).2
        = Frame.Arr (l ++ [Frame.Bulk (strToBytes pk), Frame.Bulk pv]) := by
      simp [Frame.push_bulk]
    rw [hstep, ih, pairsToFrames]
    simp

/-- The interleaved list has twice as many frames as there are fields. -/
theorem pairsToFrames_length (fm : FieldMap) :
    (pairsToFrames fm).length = 2 * fm.length := by
  induction fm with
  | nil => simp [pairsToFrames]
  | cons p rest ih =>
    obtain ⟨pk, pv⟩ := p
    simp [pairsToFrames, ih]
    omega

/-- After `hset`, reading back the same key and field finds the value,
whether the field map existed before or not. -/
theorem hget_hset_same (db : Db) (k f : String) (v : ByteStr) :
    (db.hset k f v).hget k f = some v := by
  simp [Db.hget, Db.hset, alist_get_set_same]

/-- `hset` leaves every other field of the same key unchanged. -/
theorem hget_hset_other_field (db : Db) (k f f2 : String) (v : ByteStr)
    (h : f2 ≠ f) : (db.hset k f v).hget k f2 = db.hget k f2 := by
  simp only [Db.hget, Db.hset, alist_get_set_same, Option.bind]
  rw [alist_get_set_other f f2 v _ h]
  cases hg : alist_get k db.hashes <;> simp [hg, alist_get]

/-- `hset` leaves every other key unchanged. -/
theorem hget_hset_other_key (db : Db) (k k2 f f2 : String) (v : ByteStr)
    (h : k2 ≠ k) : (db.hset k f v).hget k2 f2 = db.hget k2 f2 := by
  simp only [Db.hget, Db.hset]
  rw [alist_get_set_other k k2 _ _ h]

/-- C1: hash isolation.  Starting from an engine where key `k` is
absent, after `hset(k, f1, a)` and `hset(k, f2, b)` with `f1 ≠ f2`,
`hgetall(k)` returns exactly the mapping sending `f1` to `a` and `f2`
to `b` and nothing else, and `hget(k, f3)` for a field `f3` that was
never set on `k` returns none. -/
theorem hash_isolation (db : Db) (k f1 f2 f3 : String) (a b : ByteStr)
    (hne : f1 ≠ f2) (habs : db.hgetall k = none)
    (h31 : f3 ≠ f1) (h32 : f3 ≠ f2) :
    (∃ fm, ((db.hset k f1 a).hset k f2 b).hgetall k = some fm ∧
        alist_get f1 fm = some a ∧ alist_get f2 fm = some b ∧
        ∀ f, f ≠ f1 → f ≠ f2 → alist_get f fm = none) ∧
    ((db.hset k f1 a).hset k f2 b).hget k f3 = none := by
  have habs' : alist_get k db.hashes = none := habs
  have h1 : (db.hset k f1 a).hashes = alist_set k [(f1, a)] db.hashes := by
    simp [Db.hset, habs', alist_set]
  have hfm : alist_get k (((db.hset k f1 a).hset k f2 b).hashes)
      = some [(f1, a), (f2, b)] := by
    simp [Db.hset, h1, habs', alist_get_set_same, alist_set, hne]
  refine ⟨⟨[(f1, a), (f2, b)], hfm, ?_, ?_, ?_⟩, ?_⟩
  · simp [alist_get]
  · simp [alist_get, hne]
  · intro f hf1 hf2
    simp [alist_get, Ne.symm hf1, Ne.symm hf2]
  · simp [Db.hget, hfm, alist_get, Ne.symm h31, Ne.symm h32]

/-- Witness for C1 at concrete inputs. -/
theorem hash_isolation_witness :
    ((Db.empty.hset "k" "f1" (strToBytes "a")).hset "k" "f2"
        (strToBytes "b")).hget "k" "f3" = none :=
  (hash_isolation Db.empty "k" "f1" "f2" "f3" (strToBytes "a") (strToBytes "b")
    (by decide) rfl (by decide) (by decide)).2

/-- C2: `HGetAll::apply` writes exactly one reply frame: Null when the
engine reports the key absent, and otherwise an array holding, for each
of the `n` stored fields in order, the field name then its value as
Bulk frames, `2 * n` elements in all. -/
theorem hgetall_apply_reply (c : HGetAll) (db : Db) (dst : Connection) :
    ∃ r, ((c.apply db dst).2).written = dst.written ++ [r]
      ∧ (db.hgetall c.key = none → r = Frame.Null)
      ∧ (∀ fm, db.hgetall c.key = some fm →
          r = Frame.Arr (pairsToFrames fm) ∧
          (pairsToFrames fm).length = 2 * fm.length) := by
  cases hg : db.hgetall c.key with
  | none =>
    refine ⟨Frame.Null, ?_, fun _ => rfl, ?_⟩
    · simp [HGetAll.apply, hg, Connection.write_frame]
    · intro fm hfm
      exact Option.noConfusion hfm
  | some fm =>
    refine ⟨Frame.Arr (pairsToFrames fm), ?_, ?_, ?_⟩
    · simp [HGetAll.apply, hg, Connection.write_frame, foldl_push_pairs]
    · intro h
      exact Option.noConfusion h
    · intro fm2 hfm2
      obtain rfl : fm = fm2 := Option.some.inj hfm2
      exact ⟨rfl, pairsToFrames_length fm⟩

/-- Witness for C2: a key with one stored field yields a two-element
alternating array. -/
theorem hgetall_apply_reply_witness :
    ((HGetAll.apply ⟨"k"⟩ (Db.empty.hset "k" "f" (strToBytes "v")) ⟨[]⟩).2).written
      = [Frame.Arr [Frame.Bulk (strToBytes "f"), Frame.Bulk (strToBytes "v")]] := by
  obtain ⟨r, hw, _, hsome⟩ :=
    hgetall_apply_reply ⟨"k"⟩ (Db.empty.hset "k" "f" (strToBytes "v")) ⟨[]⟩
  obtain ⟨hr, _⟩ := hsome [("f", strToBytes "v")] rfl
  rw [hw, hr]
  rfl

/-- C3: `HGet::apply` writes exactly one reply frame: a Bulk frame
carrying the value when the engine finds one, the Null frame when the
engine reports none. -/
theorem hget_apply_reply (c : HGet) (db : Db) (dst : Connection) :
    ∃ r, ((c.apply db dst).2).written = dst.written ++ [r]
      ∧ (∀ v, db.hget c.key c.field = some v → r = Frame.Bulk v)
      ∧ (db.hget c.key c.field = none → r = Frame.Null) := by
  cases hg : db.hget c.key c.field with
  | none =>
    refine ⟨Frame.Null, ?_, ?_, fun _ => rfl⟩
    · simp [HGet.apply, hg, Connection.write_frame]
    · intro v hv
      exact Option.noConfusion hv
  | some v =>
    refine ⟨Frame.Bulk v, ?_, ?_, ?_⟩
    · simp [HGet.apply, hg, Connection.write_frame]
    · intro v2 hv2
      obtain rfl : v = v2 := Option.some.inj hv2
      rfl
    · intro h
      exact Option.noConfusion h

/-- Witness for C3: a stored field is returned as a Bulk frame. -/
theorem hget_apply_reply_witness :
    ((HGet.apply ⟨"k", "f"⟩ (Db.empty.hset "k" "f" (strToBytes "v")) ⟨[]⟩).2).written
      = [Frame.Bulk (strToBytes "v")] := by
  obtain ⟨r, hw, hsome, _⟩ :=
    hget_apply_reply ⟨"k", "f"⟩ (Db.empty.hset "k" "f" (strToBytes "v")) ⟨[]⟩
  rw [hw, hsome (strToBytes "v") rfl]
  rfl

/-- C4: `HSet::apply` stores the value under the field of the key via
the engine's hset — readable back afterwards whether the field map
existed or not, all other fields and keys untouched — and then writes
exactly one reply frame, the Simple string "OK". -/
theorem hset_apply_spec (c : HSet) (db : Db) (dst : Connection) :
    (c.apply db dst).1 = db.hset c.key c.field c.value
    ∧ ((c.apply db dst).2).written = dst.written ++ [Frame.Simple "OK"]
    ∧ ((c.apply db dst).1).hget c.key c.field = some c.value
    ∧ (∀ f2, f2 ≠ c.field → ((c.apply db dst).1).hget c.key f2 = db.hget c.key f2)
    ∧ (∀ k2, k2 ≠ c.key → ∀ f2, ((c.apply db dst).1).hget k2 f2 = db.hget k2 f2) :=
  ⟨rfl, rfl, hget_hset_same db c.key c.field c.value,
   fun f2 h => hget_hset_other_field db c.key c.field f2 c.value h,
   fun k2 h f2 => hget_hset_other_key db c.key k2 c.field f2 c.value h⟩

/-- Witness for C4: the stored field reads back, an unrelated field of
the same key stays absent. -/
theorem hset_apply_spec_witness :
    ((HSet.apply ⟨"k", "f", strToBytes "v"⟩ Db.empty ⟨[]⟩).1).hget "k" "f"
        = some (strToBytes "v")
    ∧ ((HSet.apply ⟨"k", "f", strToBytes "v"⟩ Db.empty ⟨[]⟩).1).hget "k" "g" = none := by
  have h := hset_apply_spec ⟨"k", "f", strToBytes "v"⟩ Db.empty ⟨[]⟩
  refine ⟨h.2.2.1, ?_⟩
  rw [h.2.2.2.1 "g" (by decide)]
  rfl

/-- C8: the stream commands have no engine-side effect: `Stream::xadd`,
`Stream::xread` and `Stream::xrange` return Ok leaving the stream (its
entries included) unchanged, and `XAdd::apply`, `XRead::apply` and
`XRange::apply` succeed without mutating the stored data or the
connection. -/
theorem stream_ops_are_noops :
    (∀ (s : Stream) (fs : List (String × String)), s.xadd fs = (s, Except.ok ()))
    ∧ (∀ (s : Stream) (i : String), s.xread i = (s, Except.ok ()))
    ∧ (∀ (s : Stream) (a b : String), s.xrange a b = (s, Except.ok ()))
    ∧ (∀ (c : XAdd) (db : Db) (dst : Connection), c.apply db dst = (db, dst))
    ∧ (∀ (c : XRead) (db : Db) (dst : Connection), c.apply db dst = (db, dst))
    ∧ (∀ (c : XRange) (db : Db) (dst : Connection), c.apply db dst = (db, dst)) :=
  ⟨fun _ _ => rfl, fun _ _ => rfl, fun _ _ _ => rfl,
   fun _ _ _ => rfl, fun _ _ _ => rfl, fun _ _ _ => rfl⟩

/-- C10: every stream value reachable through the public operations of
src/src/streams.rs has an empty entries deque. -/
theorem reachable_stream_entries_empty (s : Stream) (h : Stream.Reachable s) :
    s.entries = [] := by
  induction h with
  | new name => rfl
  | xadd s fs _ ih => exact ih
  | xread s i _ ih => exact ih
  | xrange s a b _ ih => exact ih

/-- Witness for C10: the stream obtained by `new` followed by `xadd` is
reachable and has no entries. -/
theorem reachable_stream_entries_empty_witness :
    (((Stream.new "race").xadd [("rider", "Castilla")]).1).entries = [] :=
  reachable_stream_entries_empty _
    (Stream.Reachable.xadd _ _ (Stream.Reachable.new "race"))

/-- Counterexample to C5 as stated: applying the parsed stream command
`XADD` writes no reply frame at all — starting from a connection with
nothing written, the connection still has nothing written afterwards,
not the one reply frame the claim requires. -/
theorem xadd_apply_writes_no_frame :
    ((XAdd.apply ⟨"race", []⟩ Db.empty ⟨[]⟩).2).written = []
    ∧ ((XAdd.apply ⟨"race", []⟩ Db.empty ⟨[]⟩).2).written.length ≠ 1 :=
  ⟨rfl, by simp [XAdd.apply]⟩

/-- C5 (amended): each hash command `HSET`, `HGET`, `HGETALL` writes
exactly one reply frame when applied, while the stream commands `XADD`,
`XREAD` and `XRANGE` write no reply frame. -/
theorem apply_reply_frame_counts (db : Db) (dst : Connection)
    (h : HSet) (g : HGet) (ga : HGetAll) (xa : XAdd) (xr : XRead) (xg : XRange) :
    (∃ r, ((h.apply db dst).2).written = dst.written ++ [r])
    ∧ (∃ r, ((g.apply db dst).2).written = dst.written ++ [r])
    ∧ (∃ r, ((ga.apply db dst).2).written = dst.written ++ [r])
    ∧ ((xa.apply db dst).2).written = dst.written
    ∧ ((xr.apply db dst).2).written = dst.written
    ∧ ((xg.apply db dst).2).written = dst.written :=
  ⟨⟨Frame.Simple "OK", rfl⟩,
   ⟨_, rfl⟩,
   ⟨_, rfl⟩,
   rfl, rfl, rfl⟩

/-- C6: command encoding round-trips through parsing: for each of the
hash commands, `into_frame` yields an array of Bulk strings headed by
the verb, and running `parse_frames` on the remaining elements
reconstructs the same command with the whole input consumed. -/
theorem into_frame_parse_frames_round_trip :
    (∀ c : HSet,
      c.into_frame = Frame.Arr [Frame.Bulk (strToBytes "hset"),
        Frame.Bulk (strToBytes c.key), Frame.Bulk (strToBytes c.field),
        Frame.Bulk c.value]
      ∧ HSet.parse_frames [Frame.Bulk (strToBytes c.key),
          Frame.Bulk (strToBytes c.field), Frame.Bulk c.value]
        = Except.ok (c, []))
    ∧ (∀ c : HGet,
      c.into_frame = Frame.Arr [Frame.Bulk (strToBytes "hget"),
        Frame.Bulk (strToBytes c.key), Frame.Bulk (strToBytes c.field)]
      ∧ HGet.parse_frames [Frame.Bulk (strToBytes c.key),
          Frame.Bulk (strToBytes c.field)]
        = Except.ok (c, []))
    ∧ (∀ c : HGetAll,
      c.into_frame = Frame.Arr [Frame.Bulk (strToBytes "hgetall"),
        Frame.Bulk (strToBytes c.key)]
      ∧ HGetAll.parse_frames [Frame.Bulk (strToBytes c.key)]
        = Except.ok (c, [])) := by
  refine ⟨fun c => ⟨rfl, ?_⟩, fun c => ⟨rfl, ?_⟩, fun c => ⟨rfl, ?_⟩⟩
  · simp [HSet.parse_frames, next_string, next_bytes, coerceString, coerceBytes,
      bytesToStr_strToBytes]
  · simp [HGet.parse_frames, next_string, coerceString, bytesToStr_strToBytes]
  · simp [HGetAll.parse_frames, next_string, coerceString, bytesToStr_strToBytes]

/-- C7: `HSet::parse_frames` extracts in order the key as a string, the
field as a string and the value as raw bytes, and returns an error —
never a command — exactly when an element's shape does not match the
requested coercion or the array runs out before all three are
consumed; `HGet::parse_frames` behaves the same for key then field. -/
theorem parse_frames_shape_checks (ps : List Frame) :
    (∀ c rest, HSet.parse_frames ps = Except.ok (c, rest) →
        ∃ f1 f2 f3, ps = f1 :: f2 :: f3 :: rest
          ∧ coerceString f1 = some c.key
          ∧ coerceString f2 = some c.field
          ∧ coerceBytes f3 = some c.value)
    ∧ ((∃ e, HSet.parse_frames ps = Except.error e) ↔
        ¬ ∃ f1 f2 f3 rest, ps = f1 :: f2 :: f3 :: rest
          ∧ (coerceString f1).isSome ∧ (coerceString f2).isSome
          ∧ (coerceBytes f3).isSome)
    ∧ (∀ c rest, HGet.parse_frames ps = Except.ok (c, rest) →
        ∃ f1 f2, ps = f1 :: f2 :: rest
          ∧ coerceString f1 = some c.key
          ∧ coerceString f2 = some c.field)
    ∧ ((∃ e, HGet.parse_frames ps = Except.error e) ↔
        ¬ ∃ f1 f2 rest, ps = f1 :: f2 :: rest
          ∧ (coerceString f1).isSome ∧ (coerceString f2).isSome) := by
  rcases ps with _ | ⟨f1, _ | ⟨f2, _ | ⟨f3, rest⟩⟩⟩
  · refine ⟨?_, ?_, ?_, ?_⟩ <;>
      simp [HSet.parse_frames, HGet.parse_frames, next_string, next_bytes]
  · cases hc1 : coerceString f1 <;>
      refine ⟨?_, ?_, ?_, ?_⟩ <;>
        simp [HSet.parse_frames, HGet.parse_frames, next_string, next_bytes, hc1]
  · cases hc1 : coerceString f1 <;> cases hc2 : coerceString f2 <;>
      refine ⟨?_, ?_, ?_, ?_⟩ <;>
        simp [HSet.parse_frames, HGet.parse_frames, next_string, next_bytes,
          hc1, hc2]
    all_goals exact ⟨f1, f2, ⟨rfl, rfl⟩, hc1, hc2⟩
  · cases hc1 : coerceString f1 <;> cases hc2 : coerceString f2 <;>
      cases hc3 : coerceBytes f3 <;>
        refine ⟨?_, ?_, ?_, ?_⟩ <;>
          simp [HSet.parse_frames, HGet.parse_frames, next_string, next_bytes,
            hc1, hc2, hc3]
    all_goals first
    | exact ⟨f1, f2, ⟨rfl, rfl⟩, hc1, hc2⟩
    | exact ⟨f1, f2, f3, ⟨rfl, rfl, rfl⟩, hc1, hc2, hc3⟩

/-- Witness for C7: a lone Integer element fails to parse as `HSET`
arguments. -/
theorem parse_frames_shape_checks_witness :
    ∃ e, HSet.parse_frames [Frame.Integer 7] = Except.error e :=
  ((parse_frames_shape_checks [Frame.Integer 7]).2.1).mpr (by simp)

/-- C9: none of the hash-command argument parsers checks for
exhaustion: an input whose required leading arguments are well shaped —
three for `HSET`, two for `HGET`, one for `HGETALL` — parses
successfully whatever trailing elements follow, of any shape; the
trailing elements are left unconsumed and never reported as an error. -/
theorem parse_frames_ignore_trailing (f1 f2 f3 : Frame)
    (h1 : (coerceString f1).isSome) (h2 : (coerceString f2).isSome)
    (h3 : (coerceBytes f3).isSome) :
    (∀ rest, ∃ c, HSet.parse_frames (f1 :: f2 :: f3 :: rest) = Except.ok (c, rest))
    ∧ (∀ rest, ∃ c, HGet.parse_frames (f1 :: f2 :: rest) = Except.ok (c, rest))
    ∧ (∀ rest, ∃ c, HGetAll.parse_frames (f1 :: rest) = Except.ok (c, rest)) := by
  obtain ⟨s1, hc1⟩ := Option.isSome_iff_exists.mp h1
  obtain ⟨s2, hc2⟩ := Option.isSome_iff_exists.mp h2
  obtain ⟨b3, hc3⟩ := Option.isSome_iff_exists.mp h3
  refine ⟨fun rest => ⟨⟨s1, s2, b3⟩, ?_⟩, fun rest => ⟨⟨s1, s2⟩, ?_⟩,
      fun rest => ⟨⟨s1⟩, ?_⟩⟩ <;>
    simp [HSet.parse_frames, HGet.parse_frames, HGetAll.parse_frames,
      next_string, next_bytes, hc1, hc2, hc3]

/-- Witness for C9: the two Bulk arguments of `HGET` followed by a
trailing Integer element — a shape no argument coercion accepts — still
parse, the Integer left over and unreported. -/
theorem parse_frames_ignore_trailing_witness :
    ∃ c, HGet.parse_frames [Frame.Bulk (strToBytes "k"), Frame.Bulk (strToBytes "f"),
      Frame.Integer 7] = Except.ok (c, [Frame.Integer 7]) :=
  ((parse_frames_ignore_trailing (Frame.Bulk (strToBytes "k"))
    (Frame.Bulk (strToBytes "f")) (Frame.Bulk (strToBytes "v"))
    rfl rfl rfl).2.1) [Frame.Integer 7]

end MiniRedis
